import Mathlib

/-!
Verification of the model layer of the edx cloudmanager SDK
(cm_sdk/models/common/common.py and cm_sdk/models/host/host.py).

The Python code is shallowly embedded: JSON data is the inductive type
Json below, Python model instances are a class descriptor plus an
association list for the state dict, and every operation of
CloudManagerBase, CloudManagerJSONEncoder and OrderedEnum is an
executable Lean function translated from the source.  The helper module
cm_sdk.models.common.string_utils (to_camel_case, to_snake_case,
convert_dict_keys, Case) is not part of the given sources, so those
functions are modelled from the specification and are marked as such.
-/

set_option autoImplicit false

/-! ## Character and string utilities

Python 2 compares byte strings lexicographically by character code; the
enum ordering methods compare member values with these operators, so we
embed that comparison directly on character codes. -/

/-- Strict lexicographic comparison of character lists by code point,
as Python 2 compares strings. -/
def charsLtb : List Char → List Char → Bool
  | [], [] => false
  | [], _ :: _ => true
  | _ :: _, [] => false
  | a :: as, b :: bs =>
    if a.toNat < b.toNat then true
    else if b.toNat < a.toNat then false
    else charsLtb as bs

/-- Non-strict lexicographic comparison of character lists by code point. -/
def charsLeb : List Char → List Char → Bool
  | [], _ => true
  | _ :: _, [] => false
  | a :: as, b :: bs =>
    if a.toNat < b.toNat then true
    else if b.toNat < a.toNat then false
    else charsLeb as bs

/-- Python string strict less-than. -/
def strLtb (a b : String) : Bool := charsLtb a.data b.data

/-- Python string less-or-equal. -/
def strLeb (a b : String) : Bool := charsLeb a.data b.data

/-- Pairs of corresponding upper and lower case ASCII letters, used to
give the case conversions a form whose lemmas are decidable. -/
def caseTable : List (Char × Char) :=
  [('A', 'a'), ('B', 'b'), ('C', 'c'), ('D', 'd'), ('E', 'e'), ('F', 'f'),
   ('G', 'g'), ('H', 'h'), ('I', 'i'), ('J', 'j'), ('K', 'k'), ('L', 'l'),
   ('M', 'm'), ('N', 'n'), ('O', 'o'), ('P', 'p'), ('Q', 'q'), ('R', 'r'),
   ('S', 's'), ('T', 't'), ('U', 'u'), ('V', 'v'), ('W', 'w'), ('X', 'x'),
   ('Y', 'y'), ('Z', 'z')]

/-- The lower-case letter for an upper-case ASCII letter, if any. -/
def lowerOf (c : Char) : Option Char :=
  (caseTable.find? (fun p => p.1 = c)).map (fun p => p.2)

/-- The upper-case letter for a lower-case ASCII letter, if any. -/
def upperOf (c : Char) : Option Char :=
  (caseTable.find? (fun p => p.2 = c)).map (fun p => p.1)

/-- Whether a character is an upper-case ASCII letter. -/
def charIsUpper (c : Char) : Bool := (lowerOf c).isSome

/-- Upper-case a lower-case ASCII letter, leaving everything else alone. -/
def charToUpper (c : Char) : Char := (upperOf c).getD c

/-- Modelled from the spec: the character transform underlying
to_camel_case from the missing module cm_sdk.models.common.string_utils.
An underscore is dropped and the following character upper-cased; all
other characters pass through. -/
def camelChars : List Char → List Char
  | [] => []
  | '_' :: c :: rest => charToUpper c :: camelChars rest
  | c :: rest => c :: camelChars rest

/-- Modelled from the spec: the character transform underlying
to_snake_case from the missing module cm_sdk.models.common.string_utils.
An upper-case letter becomes an underscore followed by its lower-case
form; all other characters pass through. -/
def snakeChars : List Char → List Char
  | [] => []
  | c :: rest =>
    match lowerOf c with
    | some l => '_' :: l :: snakeChars rest
    | none => c :: snakeChars rest

/-- Modelled from the spec: to_camel_case from the missing module
cm_sdk.models.common.string_utils, converting a snake_case attribute
name to the camelCase wire convention. -/
def to_camel_case (s : String) : String := String.mk (camelChars s.data)

/-- Modelled from the spec: to_snake_case from the missing module
cm_sdk.models.common.string_utils, converting a camelCase wire name to
the snake_case local convention. -/
def to_snake_case (s : String) : String := String.mk (snakeChars s.data)

/-- Membership of a string in a list of strings, as Python evaluates
the in operator on a list of names. -/
def strMem (s : String) : List String → Bool
  | [] => false
  | x :: tl => if x = s then true else strMem s tl

/-! ## JSON data

The mutual inductive keeps arrays and objects as private list types so
that every function below is structurally recursive and reduces inside
the kernel.  An object is the parse of a Python dict: an ordered list of
key/value pairs (well-formed Python dicts never repeat a key). -/

mutual
inductive Json where
  | null : Json
  | bool (b : Bool) : Json
  | num (n : Int) : Json
  | str (s : String) : Json
  | arr (xs : JList) : Json
  | obj (kvs : JObj) : Json
  deriving DecidableEq
inductive JList where
  | nil : JList
  | cons (hd : Json) (tl : JList) : JList
  deriving DecidableEq
inductive JObj where
  | nil : JObj
  | cons (k : String) (v : Json) (tl : JObj) : JObj
  deriving DecidableEq
end

/-- Insert a key/value pair into an object sorted by key. -/
def jobjInsert (k : String) (v : Json) : JObj → JObj
  | .nil => .cons k v .nil
  | .cons k' v' tl =>
    if strLtb k k' then .cons k v (.cons k' v' tl)
    else .cons k' v' (jobjInsert k v tl)

mutual
/-- Normal form of a JSON value with all object keys sorted recursively.
Python compares parsed JSON structures with dict equality, which ignores
key order; two values are Python-equal exactly when their normal forms
are equal (for the duplicate-free objects produced by parsing). -/
def jnorm : Json → Json
  | .obj kvs => .obj (jnormObj kvs)
  | .arr xs => .arr (jnormList xs)
  | j => j
termination_by structural j => j
/-- Normal form of each element of a JSON array. -/
def jnormList : JList → JList
  | .nil => .nil
  | .cons x tl => .cons (jnorm x) (jnormList tl)
termination_by structural xs => xs
/-- Sorted normal form of a JSON object. -/
def jnormObj : JObj → JObj
  | .nil => .nil
  | .cons k v tl => jobjInsert k (jnorm v) (jnormObj tl)
termination_by structural kvs => kvs
end

/-- Python structural equality of parsed JSON values: deep equality with
order-insensitive dict comparison. -/
def pyEq (a b : Json) : Bool := decide (jnorm a = jnorm b)

mutual
/-- CloudManagerBase.remove_keys on a parsed JSON value: removes the
named keys from every nested dict, and removes from every list the
items that are themselves equal to one of the names, recursing into the
remaining values. -/
def remove_keys : Json → List String → Json
  | .obj kvs, to_remove => .obj (removeKeysObj kvs to_remove)
  | .arr xs, to_remove => .arr (removeKeysList xs to_remove)
  | j, _ => j
termination_by structural j => j
/-- The dict comprehension of CloudManagerBase.remove_keys: entries with
a removed key are dropped and the remaining values recursed into. -/
def removeKeysObj : JObj → List String → JObj
  | .nil, _ => .nil
  | .cons k v tl, to_remove =>
    if strMem k to_remove then removeKeysObj tl to_remove
    else .cons k (remove_keys v to_remove) (removeKeysObj tl to_remove)
termination_by structural kvs => kvs
/-- The list comprehension of CloudManagerBase.remove_keys: items equal
to a removed key (string comparison) are dropped and the remaining
items recursed into. -/
def removeKeysList : JList → List String → JList
  | .nil, _ => .nil
  | .cons x tl, to_remove =>
    if (match x with | .str s => strMem s to_remove | _ => false)
    then removeKeysList tl to_remove
    else .cons (remove_keys x to_remove) (removeKeysList tl to_remove)
termination_by structural xs => xs
end

/-- The key-naming conventions of string_utils.Case. -/
inductive Case where
  | snake : Case
  | camel : Case
  deriving DecidableEq

/-- The per-key string transform selected by a Case value. -/
def caseFn : Case → String → String
  | .snake => to_snake_case
  | .camel => to_camel_case

mutual
/-- Modelled from the spec: convert_dict_keys from the missing module
cm_sdk.models.common.string_utils.  Recursively converts every dict key
to the target convention, descending through nested dicts and through
lists; values that are not dicts pass through unchanged. -/
def convert_dict_keys (c : Case) : Json → Json
  | .obj kvs => .obj (convertObj c kvs)
  | .arr xs => .arr (convertList c xs)
  | j => j
termination_by structural j => j
/-- Key conversion of each entry of a dict. -/
def convertObj (c : Case) : JObj → JObj
  | .nil => .nil
  | .cons k v tl => .cons (caseFn c k) (convert_dict_keys c v) (convertObj c tl)
termination_by structural kvs => kvs
/-- Key conversion inside each element of a list. -/
def convertList (c : Case) : JList → JList
  | .nil => .nil
  | .cons x tl => .cons (convert_dict_keys c x) (convertList c tl)
termination_by structural xs => xs
end

/-! ## Enumerations

CloudManagerEnum classes are all string-valued Python enums.  A class is
embedded as its qualified name together with its members in declaration
order; a member carries its class name, member name and string value.
Python compares classes by identity, which for the distinct qualified
class names of a single program coincides with name equality. -/

/-- A concrete CloudManagerEnum class: its name and its members, each a
member name paired with its string value, in declaration order. -/
structure EnumClass where
  name : String
  members : List (String × String)
  deriving DecidableEq

/-- One member of a CloudManagerEnum class. -/
structure EMember where
  cls : String
  name : String
  value : String
  deriving DecidableEq

/-- OrderedEnum.__ge__: defined only against the same concrete class
(none embeds the Python NotImplemented return, which enables operator
fallback); otherwise it compares the member values. -/
def OrderedEnum.ge (a b : EMember) : Option Bool :=
  if a.cls = b.cls then some (strLeb b.value a.value) else none

/-- OrderedEnum.__gt__, as for OrderedEnum.ge. -/
def OrderedEnum.gt (a b : EMember) : Option Bool :=
  if a.cls = b.cls then some (strLtb b.value a.value) else none

/-- OrderedEnum.__le__, as for OrderedEnum.ge. -/
def OrderedEnum.le (a b : EMember) : Option Bool :=
  if a.cls = b.cls then some (strLeb a.value b.value) else none

/-- OrderedEnum.__lt__, as for OrderedEnum.ge. -/
def OrderedEnum.lt (a b : EMember) : Option Bool :=
  if a.cls = b.cls then some (strLtb a.value b.value) else none

/-- CloudManagerEnum.to_json: the wire form of a member is its string
value. -/
def enumToJson (m : EMember) : Json := .str m.value

/-- The member names of cm_sdk.models.host.host.TypeName in declaration
order; each member's value equals its name. -/
def typeNameNames : List String :=
  ["MASTER", "NO_DATA", "RECOVERING", "REPLICA_ARBITER", "REPLICA_PRIMARY",
   "REPLICA_SECONDARY", "SHARD_CONFIG", "SHARD_MONGOS", "SHARD_PRIMARY",
   "SHARD_SECONDARY", "SHARD_STANDALONE", "SLAVE", "STANDALONE"]

/-- The TypeName enumeration of cm_sdk.models.host.host (the Lean name avoids a clash with an existing library declaration; the embedded class name stays TypeName). -/
def TypeNameEnum : EnumClass :=
  ⟨"TypeName", typeNameNames.map (fun s => (s, s))⟩

/-- The member of TypeName at declared ordinal position i. -/
def tnMember (i : Fin 13) : EMember :=
  ⟨"TypeName", typeNameNames.getD i.val "", typeNameNames.getD i.val ""⟩

/-! ## Model classes and instances -/

/-- A concrete CloudManagerBase subclass: its name, its declared
my_api_attributes, and its children registry.  Every children entry of
the repository maps an attribute name to a CloudManagerEnum class
(Host declares type_name -> TypeName); the branch of
get_child_from_value for CloudManagerBase-typed children is exercised
by no model of the repository and is not embedded. -/
structure ModelClass where
  name : String
  my_api_attributes : List String
  children : List (String × EnumClass)
  deriving DecidableEq

/-- CloudManagerBase.COMMON_API_ATTRIBUTES. -/
def COMMON_API_ATTRIBUTES : List String := ["id", "group_id", "links", "created"]

/-- CloudManagerBase.EQUIVALENCE_IGNORED_ATTRIBUTES. -/
def EQUIVALENCE_IGNORED_ATTRIBUTES : List String :=
  ["id", "group_id", "links", "created", "updated"]

/-- The all_api_attributes computed by CloudManagerBase.__init__:
common attributes followed by the subclass's own. -/
def all_api_attributes (cls : ModelClass) : List String :=
  COMMON_API_ATTRIBUTES ++ cls.my_api_attributes

/-- The Host model class of cm_sdk.models.host.host. -/
def Host : ModelClass :=
  ⟨"Host",
   ["alerts_enabled", "auth_mechanism_name", "cluster_id", "deactivated",
    "has_startup_warnings", "hidden", "hidden_secondary", "host_enabled",
    "hostname", "ip_address", "journaling_enabled", "last_data_size_bytes",
    "last_index_size_bytes", "last_ping", "last_reactivated", "last_restart",
    "logs_enabled", "low_ulimit", "munin_enabled", "password", "port",
    "profiler_enabled", "replica_set_name", "replica_state_name",
    "slave_delay_sec", "ssl_enabled", "type_name", "uptime_msec",
    "username", "version"],
   [("type_name", TypeNameEnum)]⟩

mutual
/-- A Python value held in a model instance's state dict (or assigned
to an attribute): raw JSON-shaped data (Python None is raw null), an
enum member, a model instance, a list produced by get_children, or a
foreign object of some other type that the JSON encoder was never
meant to see. -/
inductive Value where
  | raw : Json → Value
  | enumMember : EMember → Value
  | inst : ModelClass → StateList → Value
  | vlist : ValueList → Value
  | other : String → Value
  deriving DecidableEq
/-- The state dict of a model instance: an ordered association list of
attribute name to value. -/
inductive StateList where
  | nil : StateList
  | cons : String → Value → StateList → StateList
  deriving DecidableEq
/-- A Python list of hydrated values. -/
inductive ValueList where
  | nil : ValueList
  | cons : Value → ValueList → ValueList
  deriving DecidableEq
end

/-- A model instance: its concrete class and its state dict.
CloudManagerBase.__init__ stores the class's attribute list and an
empty state. -/
structure Inst where
  cls : ModelClass
  state : StateList
  deriving DecidableEq

/-- Whether a value is Python None. -/
def isNullV : Value → Bool
  | .raw .null => true
  | _ => false

/-- Python dict item assignment on the state dict: replace the value of
an existing key in place, or append a new key. -/
def setStateKey : StateList → String → Value → StateList
  | .nil, k, v => .cons k v .nil
  | .cons k' v' tl, k, v =>
    if k' = k then .cons k v tl else .cons k' v' (setStateKey tl k v)

/-- Lookup in the state dict. -/
def stateLookup (name : String) : StateList → Option Value
  | .nil => none
  | .cons k v tl => if k = name then some v else stateLookup name tl

/-- Whether the state dict holds a key. -/
def stateHasKey (name : String) : StateList → Bool
  | .nil => false
  | .cons k _ tl => if k = name then true else stateHasKey name tl

/-! ## JSON encoding -/

mutual
/-- Serialization of a value by json.dumps under
CloudManagerJSONEncoder: raw data is written as is; lists are written
elementwise; for other objects the encoder's default applies: an
enumeration member is rendered as its wire string value, an object
exposing a state dict as a pruned camelCase mapping, and anything else
as null. -/
def encodeValue : Value → Json
  | .raw j => j
  | .vlist xs => .arr (encodeVList xs)
  | .enumMember m => .str m.value
  | .inst _ st => .obj (encodeState st)
  | .other _ => .null
termination_by structural v => v
/-- Elementwise serialization of a Python list. -/
def encodeVList : ValueList → JList
  | .nil => .nil
  | .cons v tl => .cons (encodeValue v) (encodeVList tl)
termination_by structural vs => vs
/-- The dict comprehension of CloudManagerJSONEncoder.default: every
state entry with a non-None value is emitted with its key converted to
camel case, and the value serialized recursively. -/
def encodeState : StateList → JObj
  | .nil => .nil
  | .cons k v tl =>
    if isNullV v then encodeState tl
    else .cons (to_camel_case k) (encodeValue v) (encodeState tl)
termination_by structural st => st
end

/-- CloudManagerBase.to_json composed with json.loads, as the
equivalence check uses it: the parsed JSON projection of an instance. -/
def to_json (i : Inst) : Json := .obj (encodeState i.state)

/-- CloudManagerBase.equivalent: both instances are projected to JSON,
the ignored attributes are removed from both sides by remove_keys, and
the filtered structures are compared with Python structural equality. -/
def equivalent (x y : Inst) : Bool :=
  pyEq (remove_keys (to_json x) EQUIVALENCE_IGNORED_ATTRIBUTES)
       (remove_keys (to_json y) EQUIVALENCE_IGNORED_ATTRIBUTES)

/-! ## Attribute assignment and hydration -/

/-- Errors raised by the embedded operations. -/
inductive Err where
  | validation : String → Err
  | typeError : String → Err
  | attributeError : String → Err
  deriving DecidableEq

/-- Lookup of an attribute name in a children registry. -/
def childLookup (name : String) : List (String × EnumClass) → Option EnumClass
  | [] => none
  | (k, e) :: tl => if k = name then some e else childLookup name tl

/-- Lookup of a member by name in an enum class's member list, as the
Python subscript klass[value] looks up a member key. -/
def memberNamed (s : String) : List (String × String) → Option (String × String)
  | [] => none
  | (n, v) :: tl => if n = s then some (n, v) else memberNamed s tl

/-- Outcome of the subscript klass[value] on an enum class in
get_child_from_value: a member is found; or the lookup raises KeyError,
which the source catches, logs a warning for, and recovers from by
keeping the raw value; or the value is unhashable (a dict or list) and
the lookup raises an uncaught TypeError. -/
inductive EnumLookup where
  | found : EMember → EnumLookup
  | keyErrorWarn : EnumLookup
  | unhashable : EnumLookup
  deriving DecidableEq

/-- The subscript klass[value] of get_child_from_value.  Only a string
naming a member resolves; hashable non-names (numbers, booleans, None,
foreign objects, members of other classes) raise KeyError; unhashable
values (dicts and lists) raise TypeError. -/
def enumKeyLookup (E : EnumClass) : Value → EnumLookup
  | .raw (.str s) =>
    match memberNamed s E.members with
    | some (n, v) => .found ⟨E.name, n, v⟩
    | none => .keyErrorWarn
  | .raw (.arr _) => .unhashable
  | .raw (.obj _) => .unhashable
  | .vlist _ => .unhashable
  | _ => .keyErrorWarn

/-- CloudManagerBase.get_child_from_value for an enum-typed child (the
only child type declared by the repository's models): a found member
replaces the value; a KeyError is caught, a warning logged
(the keyErrorWarn outcome), and the raw value kept; a TypeError from an
unhashable value propagates. -/
def get_child_from_value (E : EnumClass) (value : Value) : Except Err Value :=
  match enumKeyLookup E value with
  | .found m => .ok (.enumMember m)
  | .keyErrorWarn => .ok value
  | .unhashable => .error (.typeError ("unhashable type in lookup on enum " ++ E.name))

/-- CloudManagerBase.get_child: an already-hydrated enum member or
model instance passes through, None passes through, and anything else
goes to get_child_from_value. -/
def get_child (E : EnumClass) (value : Value) : Except Err Value :=
  match value with
  | .enumMember m => .ok (.enumMember m)
  | .inst c st => .ok (.inst c st)
  | .raw .null => .ok (.raw .null)
  | v => get_child_from_value E v

/-- CloudManagerBase.get_children: each item of the list is kept if it
is already a model instance or enum member, and hydrated through
get_child otherwise. -/
def get_children (E : EnumClass) : ValueList → Except Err ValueList
  | .nil => .ok .nil
  | .cons item tl =>
    match (match item with
           | .inst c st => Except.ok (Value.inst c st)
           | .enumMember m => Except.ok (Value.enumMember m)
           | it => get_child E it) with
    | .error e => .error e
    | .ok hd =>
      match get_children E tl with
      | .error e => .error e
      | .ok rest => .ok (.cons hd rest)

/-- The elements of a parsed JSON array, as raw Python values. -/
def jlistValues : JList → ValueList
  | .nil => .nil
  | .cons x tl => .cons (.raw x) (jlistValues tl)

/-- The final lines of CloudManagerBase.__setattr__: None is not
stored, any other value is written into the state dict. -/
def storeIfNotNull (st : StateList) (name : String) (value : Value) : StateList :=
  if isNullV value then st else setStateKey st name value

/-- The child-dispatch step of CloudManagerBase.__setattr__ for a name
registered in children: a Python list value is hydrated elementwise by
get_children, any other value by get_child. -/
def hydrateChild (E : EnumClass) (value : Value) : Except Err Value :=
  match value with
  | .raw (.arr js) =>
    match get_children E (jlistValues js) with
    | .ok vs => .ok (.vlist vs)
    | .error e => .error e
  | .vlist vs =>
    match get_children E vs with
    | .ok vs' => .ok (.vlist vs')
    | .error e => .error e
  | v => get_child E v

/-- CloudManagerBase.__setattr__ on an instance of class cls with state
st: a name outside all_api_attributes raises a validation error naming
the attribute and the class; a name registered in children hydrates the
value (elementwise for a list value); None is never stored. -/
def setattr (cls : ModelClass) (st : StateList) (name : String) (value : Value) :
    Except Err StateList :=
  if strMem name (all_api_attributes cls) = false then
    .error (.validation ("Attribute " ++ name ++ " is not allowable for type " ++ cls.name))
  else
    match childLookup name cls.children with
    | some E =>
      match hydrateChild E value with
      | .ok value' => .ok (storeIfNotNull st name value')
      | .error e => .error e
    | none => .ok (storeIfNotNull st name value)

/-- CloudManagerBase.__getattr__: a set attribute is read from the
state dict, reading any other name raises AttributeError naming the
attribute and the class. -/
def getattr (i : Inst) (name : String) : Except Err Value :=
  match stateLookup name i.state with
  | some v => .ok v
  | none =>
    .error (.attributeError ("No such attribute " ++ name ++ " for instance of class "
      ++ i.cls.name ++ "."))

/-- Sequential attribute assignment, as both the model constructors and
from_dict perform it; the first failure aborts. -/
def setAll (cls : ModelClass) (st : StateList) : List (String × Value) → Except Err StateList
  | [] => .ok st
  | (k, v) :: rest =>
    match setattr cls st k v with
    | .ok st' => setAll cls st' rest
    | .error e => .error e

/-- A model constructor call with the given keyword arguments: the base
initializer produces an empty state, then every argument is assigned
through __setattr__ in order. -/
def construct (cls : ModelClass) (args : List (String × Value)) : Except Err Inst :=
  match setAll cls .nil args with
  | .ok st => .ok ⟨cls, st⟩
  | .error e => .error e

/-- The entries of a parsed JSON object, as raw values for assignment. -/
def objEntries : JObj → List (String × Value)
  | .nil => []
  | .cons k v tl => (k, .raw v) :: objEntries tl

/-- CloudManagerBase.from_dict: keys are converted to snake case, a
bare instance is constructed (every model constructor defaults all its
attributes to None, and __setattr__ drops None, so the bare instance
has an empty state), and every entry is assigned through __setattr__.
A non-dict argument raises (its items method is missing). -/
def from_dict (cls : ModelClass) (dict_in : Json) : Except Err Inst :=
  match convert_dict_keys .snake dict_in with
  | .obj kvs =>
    match setAll cls .nil (objEntries kvs) with
    | .ok st => .ok ⟨cls, st⟩
    | .error e => .error e
  | _ => .error (.attributeError "from_dict requires a mapping")

/-- CloudManagerBase.from_json on already-parsed text: the parsed value
has its keys converted to snake case and is passed to from_dict (which
converts them once more). -/
def from_json (cls : ModelClass) (parsed : Json) : Except Err Inst :=
  from_dict cls (convert_dict_keys .snake parsed)

/-! ## Predicates used by the statements -/

/-- Whether a JSON value is null. -/
def isNullJ : Json → Bool
  | .null => true
  | _ => false

/-- Whether a value is a foreign object (one the encoder renders as
null). -/
def isForeignV : Value → Bool
  | .other _ => true
  | _ => false

/-- The state invariant of the data model: every key of the state dict
is a declared attribute of the class, and no key maps to None. -/
def wfState (cls : ModelClass) : StateList → Bool
  | .nil => true
  | .cons k v tl =>
    strMem k (all_api_attributes cls) && !isNullV v && wfState cls tl

/-- The state entries that are not server-assigned: the state dict with
the equivalence-ignored attribute names removed. -/
def dropVolatile : StateList → StateList
  | .nil => .nil
  | .cons k v tl =>
    if strMem k EQUIVALENCE_IGNORED_ATTRIBUTES then dropVolatile tl
    else .cons k v (dropVolatile tl)

mutual
/-- Whether a serialized JSON value contains, at any depth, an object
key paired with null. -/
def jsonEmitsNullKey : Json → Bool
  | .obj kvs => objEmitsNullKey kvs
  | .arr xs => listEmitsNullKey xs
  | _ => false
termination_by structural j => j
/-- Null-valued key search inside an object. -/
def objEmitsNullKey : JObj → Bool
  | .nil => false
  | .cons _ v tl => isNullJ v || jsonEmitsNullKey v || objEmitsNullKey tl
termination_by structural kvs => kvs
/-- Null-valued key search inside an array. -/
def listEmitsNullKey : JList → Bool
  | .nil => false
  | .cons x tl => jsonEmitsNullKey x || listEmitsNullKey tl
termination_by structural xs => xs
end

/-- Whether an encoded object has a null directly as one of its own
values. -/
def objHasTopNull : JObj → Bool
  | .nil => false
  | .cons _ v tl => isNullJ v || objHasTopNull tl

/-- Whether a state dict is free of foreign objects at the top level of
its values (the encoder renders a foreign object as null). -/
def noForeignTop : StateList → Bool
  | .nil => true
  | .cons _ v tl => !isForeignV v && noForeignTop tl

/-- Concatenation of state dicts. -/
def stAppend : StateList → StateList → StateList
  | .nil, b => b
  | .cons k v tl, b => .cons k v (stAppend tl b)

/-- Whether a state entry survives the serialize/deserialize round trip
unchanged: a child attribute must hold a member of the declared
enumeration whose name equals its value and is found by the rebuild's
name lookup, and a plain attribute must hold an atomic JSON value
(string, number or boolean), which key conversion leaves untouched. -/
def rtValueOk (cls : ModelClass) (k : String) (v : Value) : Bool :=
  match childLookup k cls.children with
  | some E =>
    match v with
    | .enumMember m =>
      m.cls == E.name && m.name == m.value &&
      decide (memberNamed m.value E.members = some (m.value, m.value))
    | _ => false
  | none =>
    match v with
    | .raw (.str _) => true
    | .raw (.num _) => true
    | .raw (.bool _) => true
    | _ => false

/-- A state dict whose serialization deserializes back to itself: keys
are declared, stable under the camel/snake round trip and duplicate
free, and every value is round-trippable. -/
def rtState (cls : ModelClass) : StateList → Bool
  | .nil => true
  | .cons k v tl =>
    strMem k (all_api_attributes cls) &&
    (to_snake_case (to_camel_case k) == k) &&
    !stateHasKey k tl &&
    rtValueOk cls k v &&
    rtState cls tl

/-- The object that the serialize/deserialize pipeline presents to the
assignment loop for a round-trippable state: each entry keeps its
snake-case key and carries the serialized value. -/
def rtEncodedObj : StateList → JObj
  | .nil => .nil
  | .cons k v tl => .cons k (encodeValue v) (rtEncodedObj tl)

/-- Whether no key of the first state dict occurs in the second. -/
def stDisjoint : StateList → StateList → Bool
  | .nil, _ => true
  | .cons k _ tl, acc => !stateHasKey k acc && stDisjoint tl acc

/-! ## Helper lemmas -/

theorem stateListInd (motive : StateList → Prop) (hnil : motive .nil)
    (hcons : ∀ k v tl, motive tl → motive (.cons k v tl)) : ∀ st, motive st
  | .nil => hnil
  | .cons k v tl => hcons k v tl (stateListInd motive hnil hcons tl)
termination_by structural st => st

theorem jobjInd (motive : JObj → Prop) (hnil : motive .nil)
    (hcons : ∀ k v tl, motive tl → motive (.cons k v tl)) : ∀ kvs, motive kvs
  | .nil => hnil
  | .cons k v tl => hcons k v tl (jobjInd motive hnil hcons tl)
termination_by structural kvs => kvs

theorem valueListInd (motive : ValueList → Prop) (hnil : motive .nil)
    (hcons : ∀ v tl, motive tl → motive (.cons v tl)) : ∀ vs, motive vs
  | .nil => hnil
  | .cons v tl => hcons v tl (valueListInd motive hnil hcons tl)
termination_by structural vs => vs

theorem string_mk_data (l : List Char) : (String.mk l).data = l := rfl

theorem pyEq_refl (a : Json) : pyEq a a = true := by simp [pyEq]

theorem pyEq_symm (a b : Json) : pyEq a b = pyEq b a := by
  simp only [pyEq]
  exact decide_eq_decide.mpr ⟨Eq.symm, Eq.symm⟩

theorem lowerOf_lower_none {c l : Char} (h : lowerOf c = some l) : lowerOf l = none := by
  have h' := h
  unfold lowerOf at h'
  rcases Option.map_eq_some'.mp h' with ⟨p, hp, hpl⟩
  have hmem := List.mem_of_find?_eq_some hp
  have : ∀ p ∈ caseTable, lowerOf p.2 = none := by decide
  rw [← hpl]
  exact this p hmem

theorem lowerOf_underscore : lowerOf '_' = none := by decide

theorem snakeChars_idem (l : List Char) : snakeChars (snakeChars l) = snakeChars l := by
  induction l with
  | nil => rfl
  | cons c rest ih =>
    cases h : lowerOf c with
    | some l₀ =>
      simp only [snakeChars, h, lowerOf_underscore, lowerOf_lower_none h, ih]
    | none =>
      simp only [snakeChars, h, ih]

theorem to_snake_idem (s : String) : to_snake_case (to_snake_case s) = to_snake_case s := by
  cases s with
  | mk l => simp only [to_snake_case, string_mk_data, snakeChars_idem]

theorem removeKeys_encode_ignored (k : String) (v : Value) (st : StateList)
    (h : strMem (to_camel_case k) EQUIVALENCE_IGNORED_ATTRIBUTES = true) :
    removeKeysObj (encodeState (.cons k v st)) EQUIVALENCE_IGNORED_ATTRIBUTES
      = removeKeysObj (encodeState st) EQUIVALENCE_IGNORED_ATTRIBUTES := by
  cases hv : isNullV v with
  | true => simp [encodeState, hv]
  | false => simp [encodeState, hv, removeKeysObj, h]

/-- C1, counterexample: two Host instances that differ only in the
server-assigned field group_id (the first sets it, the second does not,
and outside the server-assigned fields both states are equal) are not
equivalent: the claim promises that instances differing only in the
server-assigned fields id, group_id, links, created, updated are
equivalent, but the removal list holds the snake-case name group_id
while the JSON projection renders the key as groupId, so the entry
survives filtering on one side only. -/
theorem group_id_not_ignored_by_equivalence :
    dropVolatile (.cons "group_id" (.raw (.str "g")) .nil) = dropVolatile .nil
      ∧ equivalent ⟨Host, .cons "group_id" (.raw (.str "g")) .nil⟩ ⟨Host, .nil⟩ = false := by
  constructor
  · decide
  · decide

/-- C1, amended: equivalence is computed on the JSON projections of
both instances with remove_keys applied to both sides; of the
server-assigned fields only id, links, created and updated (whose wire
keys equal their names) are thereby ignored, so instances differing
only in those four fields are equivalent, while a group_id difference
is visible because its wire key groupId is not in the removal list. -/
theorem equivalent_ignores_id_links_created_updated
    (cls : ModelClass) (st : StateList) (v1 v2 v3 v4 : Value) :
    equivalent
      ⟨cls, .cons "id" v1 (.cons "links" v2 (.cons "created" v3 (.cons "updated" v4 st)))⟩
      ⟨cls, st⟩ = true := by
  simp only [equivalent, to_json, remove_keys]
  rw [removeKeys_encode_ignored "id" v1 _ (by decide),
    removeKeys_encode_ignored "links" v2 _ (by decide),
    removeKeys_encode_ignored "created" v3 _ (by decide),
    removeKeys_encode_ignored "updated" v4 _ (by decide)]
  exact pyEq_refl _

/-- C10: equivalence is reflexive and symmetric: both sides are reduced
by the same projection and key removal, and the final Python structural
comparison is an equality check of normal forms. -/
theorem equivalent_refl_and_symm (x y : Inst) :
    equivalent x x = true ∧ equivalent x y = equivalent y x :=
  ⟨pyEq_refl _, pyEq_symm _ _⟩

/-- C2, counterexample: assigning None to the Host attribute hostname
after it already holds a value writes nothing but also removes nothing:
the old entry survives and a subsequent read still succeeds, where the
claim promises the attribute reverts to unset and the read fails. -/
theorem null_assignment_keeps_previous_value :
    setattr Host (.cons "hostname" (.raw (.str "a")) .nil) "hostname" (.raw .null)
        = .ok (.cons "hostname" (.raw (.str "a")) .nil)
      ∧ getattr ⟨Host, .cons "hostname" (.raw (.str "a")) .nil⟩ "hostname"
        = .ok (.raw (.str "a")) :=
  ⟨rfl, rfl⟩

/-- C2, amended: when the resolved value of an assignment is None the
state dict is left exactly as it was: no entry is written, and in
particular a previously assigned value for the same attribute is
retained rather than removed, so the attribute reads as unset only if
it was never set before. -/
theorem setattr_null_writes_nothing (cls : ModelClass) (st : StateList) (name : String)
    (h : strMem name (all_api_attributes cls) = true) :
    setattr cls st name (.raw .null) = .ok st := by
  unfold setattr
  rw [h]
  simp only [Bool.true_eq_false, if_false]
  cases hc : childLookup name cls.children with
  | some E => simp [hydrateChild, get_child, storeIfNotNull, isNullV]
  | none => simp [storeIfNotNull, isNullV]

/-- C2, witness for the amended theorem at a concrete input. -/
theorem setattr_null_writes_nothing_witness :
    setattr Host (.cons "port" (.raw (.num 1)) .nil) "hostname" (.raw .null)
      = .ok (.cons "port" (.raw (.num 1)) .nil) :=
  setattr_null_writes_nothing Host (.cons "port" (.raw (.num 1)) .nil) "hostname" (by decide)

/-- C3: assigning an attribute name outside the instance's allowed set
always raises the validation error naming the offending attribute and
the concrete type, whether the assignment comes directly from
__setattr__, from a constructor argument, or from a key being
deserialized by from_dict; the error aborts the operation, so the
assignment is never silently ignored. -/
theorem setattr_disallowed_name_validation_error :
    (∀ (cls : ModelClass) (st : StateList) (name : String) (v : Value),
      strMem name (all_api_attributes cls) = false →
      setattr cls st name v
        = .error (.validation ("Attribute " ++ name ++ " is not allowable for type " ++ cls.name)))
    ∧ (∀ (cls : ModelClass) (args : List (String × Value)) (name : String) (v : Value),
      strMem name (all_api_attributes cls) = false →
      construct cls ((name, v) :: args)
        = .error (.validation ("Attribute " ++ name ++ " is not allowable for type " ++ cls.name)))
    ∧ (∀ (cls : ModelClass) (k : String) (jv : Json) (rest : JObj),
      strMem (to_snake_case k) (all_api_attributes cls) = false →
      from_dict cls (.obj (.cons k jv rest))
        = .error (.validation ("Attribute " ++ to_snake_case k
            ++ " is not allowable for type " ++ cls.name))) := by
  have base : ∀ (cls : ModelClass) (st : StateList) (name : String) (v : Value),
      strMem name (all_api_attributes cls) = false →
      setattr cls st name v
        = .error (.validation ("Attribute " ++ name ++ " is not allowable for type "
            ++ cls.name)) := by
    intro cls st name v h
    unfold setattr
    rw [h]
    simp
  refine ⟨base, ?_, ?_⟩
  · intro cls args name v h
    unfold construct setAll
    rw [base cls .nil name v h]
  · intro cls k jv rest h
    unfold from_dict
    simp only [convert_dict_keys, convertObj, caseFn]
    unfold objEntries setAll
    rw [base cls .nil (to_snake_case k) (.raw (convert_dict_keys .snake jv)) h]

/-- C3, witness: deserializing a dict with the wire key hostName onto
Host fails with the validation error for host_name. -/
theorem setattr_disallowed_name_validation_error_witness :
    from_dict Host (.obj (.cons "hostName" (.str "x") .nil))
      = .error (.validation "Attribute host_name is not allowable for type Host") :=
  setattr_disallowed_name_validation_error.2.2 Host "hostName" (.str "x") .nil (by decide)

theorem wf_setStateKey (cls : ModelClass) (st : StateList) (k : String) (v : Value)
    (hk : strMem k (all_api_attributes cls) = true) (hv : isNullV v = false) :
    wfState cls st = true → wfState cls (setStateKey st k v) = true := by
  induction st using stateListInd with
  | hnil =>
    intro _
    simp [setStateKey, wfState, hk, hv]
  | hcons k' v' tl ih =>
    intro hst
    simp only [wfState, Bool.and_eq_true] at hst
    obtain ⟨⟨h1, h2⟩, h3⟩ := hst
    by_cases hkk : k' = k
    · simp [setStateKey, hkk, wfState, hk, hv, h3]
    · simp [setStateKey, hkk, wfState, h1, h2, ih h3]

theorem wf_store (cls : ModelClass) (st : StateList) (name : String) (value : Value)
    (hk : strMem name (all_api_attributes cls) = true) (hst : wfState cls st = true) :
    wfState cls (storeIfNotNull st name value) = true := by
  unfold storeIfNotNull
  cases hv : isNullV value with
  | true => simpa using hst
  | false => simpa [hv] using wf_setStateKey cls st name value hk hv hst

theorem wf_setattr (cls : ModelClass) (st : StateList) (name : String) (value : Value)
    (st' : StateList) (h : setattr cls st name value = .ok st')
    (hst : wfState cls st = true) : wfState cls st' = true := by
  cases hq : strMem name (all_api_attributes cls) with
  | false =>
    rw [setattr, hq] at h
    simp at h
  | true =>
    rw [setattr, hq] at h
    simp only [Bool.true_eq_false, if_false] at h
    cases hc : childLookup name cls.children with
    | some E =>
      simp only [hc] at h
      cases hh : hydrateChild E value with
      | ok value' =>
        rw [hh] at h
        cases h
        exact wf_store cls st name value' hq hst
      | error e =>
        rw [hh] at h
        cases h
    | none =>
      simp only [hc] at h
      cases h
      exact wf_store cls st name value hq hst

theorem wf_setAll (cls : ModelClass) (entries : List (String × Value)) :
    ∀ st st', setAll cls st entries = .ok st' → wfState cls st = true →
      wfState cls st' = true := by
  induction entries with
  | nil =>
    intro st st' h hw
    cases h
    exact hw
  | cons kv rest ih =>
    intro st st' h hw
    obtain ⟨k, v⟩ := kv
    unfold setAll at h
    cases hs : setattr cls st k v with
    | ok st1 =>
      rw [hs] at h
      exact ih st1 st' h (wf_setattr cls st k v st1 hs hw)
    | error e =>
      rw [hs] at h
      cases h

/-- C4: the state invariant holds for every instance the operations can
produce: a bare instance has an empty (vacuously well-formed) state,
__setattr__ preserves well-formedness (every stored key is checked
against all_api_attributes and None is never stored), and the instances
built by a constructor call, from_dict or from_json are well-formed. -/
theorem state_invariant_preserved :
    (∀ cls : ModelClass, wfState cls .nil = true)
    ∧ (∀ (cls : ModelClass) (st : StateList) (name : String) (value : Value)
        (st' : StateList), setattr cls st name value = .ok st' →
        wfState cls st = true → wfState cls st' = true)
    ∧ (∀ (cls : ModelClass) (args : List (String × Value)) (i : Inst),
        construct cls args = .ok i → wfState i.cls i.state = true)
    ∧ (∀ (cls : ModelClass) (j : Json) (i : Inst),
        from_dict cls j = .ok i → wfState i.cls i.state = true)
    ∧ (∀ (cls : ModelClass) (j : Json) (i : Inst),
        from_json cls j = .ok i → wfState i.cls i.state = true) := by
  have hdict : ∀ (cls : ModelClass) (j : Json) (i : Inst),
      from_dict cls j = .ok i → wfState i.cls i.state = true := by
    intro cls j i h
    unfold from_dict at h
    split at h
    · rename_i kvs heq
      cases hs : setAll cls .nil (objEntries kvs) with
      | ok st =>
        rw [hs] at h
        cases h
        exact wf_setAll cls (objEntries kvs) .nil st hs rfl
      | error e =>
        rw [hs] at h
        cases h
    · cases h
  refine ⟨fun _ => rfl, wf_setattr, ?_, hdict, ?_⟩
  · intro cls args i h
    unfold construct at h
    cases hs : setAll cls .nil args with
    | ok st =>
      rw [hs] at h
      cases h
      exact wf_setAll cls args .nil st hs rfl
    | error e =>
      rw [hs] at h
      cases h
  · intro cls j i h
    exact hdict cls (convert_dict_keys .snake j) i h

/-- C4, witness for the from_dict part at a concrete input. -/
theorem state_invariant_preserved_witness :
    wfState Host (.cons "hostname" (.raw (.str "x")) .nil) = true :=
  state_invariant_preserved.2.2.2.1 Host (.obj (.cons "hostname" (.str "x") .nil))
    ⟨Host, .cons "hostname" (.raw (.str "x")) .nil⟩ rfl

theorem encode_nonnull_value (v : Value) (h1 : isNullV v = false)
    (h2 : isForeignV v = false) :
    isNullJ (encodeValue v) = false := by
  cases v with
  | raw j =>
    cases j with
    | null => simp [isNullV] at h1
    | bool b => rfl
    | num n => rfl
    | str s => rfl
    | arr xs => rfl
    | obj kvs => rfl
  | enumMember m => rfl
  | inst c st => rfl
  | vlist vs => rfl
  | other t => simp [isForeignV] at h2

theorem encodeState_no_top_null (st : StateList) :
    noForeignTop st = true → objHasTopNull (encodeState st) = false := by
  induction st using stateListInd with
  | hnil => intro _; rfl
  | hcons k v tl ih =>
    intro h
    simp only [noForeignTop, Bool.and_eq_true, Bool.not_eq_eq_eq_not, Bool.not_true] at h
    obtain ⟨hv, htl⟩ := h
    cases hn : isNullV v with
    | true => simpa [encodeState, hn] using ih htl
    | false =>
      simp only [encodeState, hn, Bool.false_eq_true, if_false, objHasTopNull]
      rw [encode_nonnull_value v hn hv, ih htl]
      rfl

/-- C6, counterexample: a well-formed Host whose hostname attribute
holds a raw mapping containing a null value serializes to JSON in which
a key is paired with null: the encoder emits raw values verbatim, so
the promise that to_json never emits a null-valued key fails. -/
theorem to_json_emits_null_inside_raw_value :
    wfState Host (.cons "hostname" (.raw (.obj (.cons "a" .null .nil))) .nil) = true
      ∧ jsonEmitsNullKey
          (to_json ⟨Host, .cons "hostname" (.raw (.obj (.cons "a" .null .nil))) .nil⟩)
        = true := by
  constructor
  · decide
  · decide

/-- C6, amended: the encoder's rendering rule is exactly as stated: an
enumeration member renders as its wire string value
(CloudManagerEnum.to_json), an object exposing a state dict renders as
the mapping of its non-null entries under camelCase keys with values
emitted unchanged for recursive encoding, and any other object renders
as null; consequently the mapping rendered for a model instance itself
never pairs a key with null when the state holds no foreign object,
but nulls nested inside raw values stored in state are emitted
verbatim by to_json. -/
theorem encoder_rendering_rule :
    (∀ m : EMember, encodeValue (.enumMember m) = enumToJson m)
    ∧ (∀ (cls : ModelClass) (st : StateList),
        encodeValue (.inst cls st) = .obj (encodeState st))
    ∧ (∀ t : String, encodeValue (.other t) = .null)
    ∧ (∀ (k : String) (v : Value) (st : StateList), isNullV v = true →
        encodeState (.cons k v st) = encodeState st)
    ∧ (∀ (k : String) (v : Value) (st : StateList), isNullV v = false →
        encodeState (.cons k v st)
          = .cons (to_camel_case k) (encodeValue v) (encodeState st))
    ∧ (∀ st : StateList, noForeignTop st = true →
        objHasTopNull (encodeState st) = false) := by
  refine ⟨fun _ => rfl, fun _ _ => rfl, fun _ => rfl, ?_, ?_, encodeState_no_top_null⟩
  · intro k v st h
    simp [encodeState, h]
  · intro k v st h
    simp [encodeState, h]

/-- C6, witness for the amended theorem at a concrete input. -/
theorem encoder_rendering_rule_witness :
    objHasTopNull (encodeState (.cons "hostname" (.raw (.str "x")) .nil)) = false :=
  encoder_rendering_rule.2.2.2.2.2 (.cons "hostname" (.raw (.str "x")) .nil) (by decide)

/-- C7, counterexample: assigning a raw mapping to the enum-typed Host
attribute type_name matches no member of TypeName, yet does not warn
and store the raw value: the subscript TypeName with an unhashable key
raises a TypeError that the source does not catch, so the assignment
fails where the claim promises success. -/
theorem enum_child_dict_value_type_error :
    setattr Host .nil "type_name" (.raw (.obj (.cons "a" (.num 1) .nil)))
      = .error (.typeError "unhashable type in lookup on enum TypeName") := rfl

/-- C7, amended: for an attribute declared in children with an
enumeration type, assigning a non-null hashable value that matches no
member (the KeyError outcome of the member lookup, which the source
catches and logs a warning for) succeeds and stores the raw value
unchanged; an unhashable value (a dict or list element) instead raises
an uncaught TypeError. -/
theorem unresolvable_enum_member_warn_and_store
    (cls : ModelClass) (st : StateList) (name : String) (value : Value) (E : EnumClass)
    (hn : strMem name (all_api_attributes cls) = true)
    (hc : childLookup name cls.children = some E)
    (hw : enumKeyLookup E value = .keyErrorWarn)
    (hv : isNullV value = false) :
    setattr cls st name value = .ok (setStateKey st name value) := by
  rw [setattr, hn]
  simp only [Bool.true_eq_false, if_false]
  simp only [hc]
  have hh : hydrateChild E value = .ok value := by
    cases value with
    | raw j =>
      cases j with
      | null => simp [isNullV] at hv
      | bool b => simp [hydrateChild, get_child, get_child_from_value, hw]
      | num n => simp [hydrateChild, get_child, get_child_from_value, hw]
      | str s => simp [hydrateChild, get_child, get_child_from_value, hw]
      | arr xs => simp [enumKeyLookup] at hw
      | obj kvs => simp [enumKeyLookup] at hw
    | enumMember m => rfl
    | inst c stx => rfl
    | vlist vs => simp [enumKeyLookup] at hw
    | other t => simp [hydrateChild, get_child, get_child_from_value, hw]
  rw [hh]
  simp [storeIfNotNull, hv]

/-- C7, witness for the amended theorem at a concrete input: the
unknown member name BOGUS is stored raw on type_name. -/
theorem unresolvable_enum_member_warn_and_store_witness :
    setattr Host .nil "type_name" (.raw (.str "BOGUS"))
      = .ok (setStateKey .nil "type_name" (.raw (.str "BOGUS"))) :=
  unresolvable_enum_member_warn_and_store Host .nil "type_name" (.raw (.str "BOGUS"))
    TypeNameEnum (by decide) (by decide) (by decide) (by decide)

/-- C8: for the TypeName enumeration, each of the four ordering
comparisons between the members at declared ordinal positions i and j
agrees with the comparison of i and j; the methods compare member
values, and the declared order of TypeName coincides with the
lexicographic order of its string values, so ordering follows the
declared ordinals. -/
theorem typename_ordering_matches_declared_ordinals :
    TypeNameEnum.members.length = 13
    ∧ ∀ i j : Fin 13,
        OrderedEnum.lt (tnMember i) (tnMember j) = some (decide (i.val < j.val))
        ∧ OrderedEnum.le (tnMember i) (tnMember j) = some (decide (i.val ≤ j.val))
        ∧ OrderedEnum.gt (tnMember i) (tnMember j) = some (decide (j.val < i.val))
        ∧ OrderedEnum.ge (tnMember i) (tnMember j) = some (decide (j.val ≤ i.val)) := by
  decide

/-- C9: every ordering comparison between enum members of two different
concrete classes returns the not-supported result (the embedding of the
Python NotImplemented return, which triggers standard operator
fallback): no exception and no plain boolean. -/
theorem cross_enum_comparison_not_supported (a b : EMember) (h : a.cls ≠ b.cls) :
    OrderedEnum.lt a b = none ∧ OrderedEnum.le a b = none
      ∧ OrderedEnum.gt a b = none ∧ OrderedEnum.ge a b = none := by
  simp [OrderedEnum.lt, OrderedEnum.le, OrderedEnum.gt, OrderedEnum.ge, h]

/-- C9, witness at a concrete pair of members of different classes. -/
theorem cross_enum_comparison_not_supported_witness :
    OrderedEnum.lt ⟨"TypeName", "MASTER", "MASTER"⟩ ⟨"StatusName", "OK", "OK"⟩ = none
      ∧ OrderedEnum.le ⟨"TypeName", "MASTER", "MASTER"⟩ ⟨"StatusName", "OK", "OK"⟩ = none
      ∧ OrderedEnum.gt ⟨"TypeName", "MASTER", "MASTER"⟩ ⟨"StatusName", "OK", "OK"⟩ = none
      ∧ OrderedEnum.ge ⟨"TypeName", "MASTER", "MASTER"⟩ ⟨"StatusName", "OK", "OK"⟩ = none :=
  cross_enum_comparison_not_supported ⟨"TypeName", "MASTER", "MASTER"⟩
    ⟨"StatusName", "OK", "OK"⟩ (by decide)

theorem rtValueOk_not_null (cls : ModelClass) (k : String) (v : Value)
    (h : rtValueOk cls k v = true) : isNullV v = false := by
  unfold rtValueOk at h
  cases hc : childLookup k cls.children with
  | some E =>
    rw [hc] at h
    cases v <;> simp_all [isNullV]
  | none =>
    rw [hc] at h
    cases v with
    | raw j => cases j <;> simp_all [isNullV]
    | enumMember m => simp at h
    | inst c st => simp at h
    | vlist vs => simp at h
    | other t => simp at h

theorem conv_snake_rt_value (cls : ModelClass) (k : String) (v : Value)
    (h : rtValueOk cls k v = true) :
    convert_dict_keys .snake (encodeValue v) = encodeValue v := by
  unfold rtValueOk at h
  cases hc : childLookup k cls.children with
  | some E =>
    rw [hc] at h
    cases v <;> simp_all [encodeValue, convert_dict_keys]
  | none =>
    rw [hc] at h
    cases v with
    | raw j => cases j <;> simp_all [encodeValue, convert_dict_keys]
    | enumMember m => simp at h
    | inst c st => simp at h
    | vlist vs => simp at h
    | other t => simp at h

theorem stateHasKey_stAppend (k : String) (a b : StateList) :
    stateHasKey k (stAppend a b) = (stateHasKey k a || stateHasKey k b) := by
  induction a using stateListInd with
  | hnil => rfl
  | hcons k' v' tl ih =>
    by_cases hk : k' = k
    · simp [stAppend, stateHasKey, hk]
    · simp [stAppend, stateHasKey, hk, ih]

theorem setStateKey_fresh (acc : StateList) (k : String) (v : Value)
    (h : stateHasKey k acc = false) :
    setStateKey acc k v = stAppend acc (.cons k v .nil) := by
  induction acc using stateListInd with
  | hnil => rfl
  | hcons k' v' tl ih =>
    simp only [stateHasKey] at h
    by_cases hk : k' = k
    · simp [hk] at h
    · simp only [hk, if_false] at h
      simp [setStateKey, hk, stAppend, ih h]

theorem stAppend_assoc (a b c : StateList) :
    stAppend (stAppend a b) c = stAppend a (stAppend b c) := by
  induction a using stateListInd with
  | hnil => rfl
  | hcons k v tl ih => simp [stAppend, ih]

theorem stDisjoint_nil_right (st : StateList) : stDisjoint st .nil = true := by
  induction st using stateListInd with
  | hnil => rfl
  | hcons k v tl ih => simp [stDisjoint, stateHasKey, ih]

theorem stDisjoint_single (tl : StateList) (k : String) (v : Value)
    (h : stateHasKey k tl = false) : stDisjoint tl (.cons k v .nil) = true := by
  induction tl using stateListInd with
  | hnil => rfl
  | hcons k' v' tl' ih =>
    simp only [stateHasKey] at h
    by_cases hk : k' = k
    · simp [hk] at h
    · simp only [hk, if_false] at h
      simp [stDisjoint, stateHasKey, ih h, Ne.symm hk]

theorem stDisjoint_stAppend (tl a b : StateList)
    (ha : stDisjoint tl a = true) (hb : stDisjoint tl b = true) :
    stDisjoint tl (stAppend a b) = true := by
  induction tl using stateListInd with
  | hnil => rfl
  | hcons k v tl' ih =>
    simp only [stDisjoint, Bool.and_eq_true, Bool.not_eq_eq_eq_not, Bool.not_true] at ha hb ⊢
    refine ⟨?_, ih ha.2 hb.2⟩
    rw [stateHasKey_stAppend, ha.1, hb.1]
    rfl

theorem stAppend_nil (a : StateList) : stAppend a .nil = a := by
  induction a using stateListInd with
  | hnil => rfl
  | hcons k v tl ih => simp [stAppend, ih]

theorem conv2_encode (cls : ModelClass) (st : StateList) :
    rtState cls st = true →
    convertObj .snake (convertObj .snake (encodeState st)) = rtEncodedObj st := by
  induction st using stateListInd with
  | hnil => intro _; rfl
  | hcons k v tl ih =>
    intro h
    simp only [rtState, Bool.and_eq_true, beq_iff_eq, Bool.not_eq_eq_eq_not,
      Bool.not_true] at h
    obtain ⟨⟨⟨⟨hmem, hkey⟩, hfresh⟩, hvok⟩, htl⟩ := h
    have hnn := rtValueOk_not_null cls k v hvok
    have hcv := conv_snake_rt_value cls k v hvok
    have hk2 : to_snake_case k = k := by
      rw [← hkey]
      exact to_snake_idem _
    simp only [encodeState, hnn, Bool.false_eq_true, if_false, convertObj, caseFn,
      hkey, hk2, hcv, rtEncodedObj, ih htl]

theorem setattr_rt_entry (cls : ModelClass) (acc : StateList) (k : String) (v : Value)
    (hmem : strMem k (all_api_attributes cls) = true)
    (hvok : rtValueOk cls k v = true) :
    setattr cls acc k (.raw (encodeValue v)) = .ok (setStateKey acc k v) := by
  rw [setattr, hmem]
  simp only [Bool.true_eq_false, if_false]
  unfold rtValueOk at hvok
  cases hc : childLookup k cls.children with
  | some E =>
    rw [hc] at hvok
    simp only [hc]
    cases v with
    | enumMember m =>
      simp only [Bool.and_eq_true, beq_iff_eq, decide_eq_true_eq] at hvok
      obtain ⟨⟨hcls, hname⟩, hfound⟩ := hvok
      simp only [encodeValue, hydrateChild, get_child, get_child_from_value,
        enumKeyLookup, hfound]
      have hm : (⟨E.name, m.value, m.value⟩ : EMember) = m := by
        obtain ⟨mc, mn, mv⟩ := m
        simp only at hcls hname
        rw [hcls, hname]
      rw [hm]
      simp [storeIfNotNull, isNullV]
    | raw j => simp at hvok
    | inst c st => simp at hvok
    | vlist vs => simp at hvok
    | other t => simp at hvok
  | none =>
    rw [hc] at hvok
    simp only [hc]
    cases v with
    | raw j =>
      cases j with
      | str s => simp [encodeValue, storeIfNotNull, isNullV]
      | num n => simp [encodeValue, storeIfNotNull, isNullV]
      | bool b => simp [encodeValue, storeIfNotNull, isNullV]
      | null => simp at hvok
      | arr xs => simp at hvok
      | obj kvs => simp at hvok
    | enumMember m => simp at hvok
    | inst c st => simp at hvok
    | vlist vs => simp at hvok
    | other t => simp at hvok

theorem setAll_rt (cls : ModelClass) (st : StateList) :
    ∀ acc, rtState cls st = true → stDisjoint st acc = true →
      setAll cls acc (objEntries (rtEncodedObj st)) = .ok (stAppend acc st) := by
  induction st using stateListInd with
  | hnil =>
    intro acc _ _
    rw [stAppend_nil]
    rfl
  | hcons k v tl ih =>
    intro acc hrt hdisj
    simp only [rtState, Bool.and_eq_true, beq_iff_eq, Bool.not_eq_eq_eq_not,
      Bool.not_true] at hrt
    obtain ⟨⟨⟨⟨hmem, hkey⟩, hfresh⟩, hvok⟩, htl⟩ := hrt
    simp only [stDisjoint, Bool.and_eq_true, Bool.not_eq_eq_eq_not, Bool.not_true] at hdisj
    obtain ⟨hacck, hacctl⟩ := hdisj
    simp only [rtEncodedObj, objEntries, setAll]
    rw [setattr_rt_entry cls acc k v hmem hvok, setStateKey_fresh acc k v hacck]
    have hstep := ih (stAppend acc (.cons k v .nil)) htl
      (stDisjoint_stAppend tl acc _ hacctl (stDisjoint_single tl k v hfresh))
    simp only [hstep, stAppend_assoc, stAppend]

/-- C5, counterexample: a Host whose hostname attribute holds a raw
mapping with a camelCase key round-trips to an instance with a
different value (deserialization converts every nested key to snake
case while serialization converts only state keys), and the two
instances are not even equivalent, where the claim promises
equivalence and matching attributes for every instance. -/
theorem roundtrip_fails_on_nested_camel_dict :
    from_json Host
        (to_json ⟨Host, .cons "hostname" (.raw (.obj (.cons "fooBar" (.num 1) .nil))) .nil⟩)
      = .ok ⟨Host, .cons "hostname" (.raw (.obj (.cons "foo_bar" (.num 1) .nil))) .nil⟩
      ∧ equivalent ⟨Host, .cons "hostname" (.raw (.obj (.cons "fooBar" (.num 1) .nil))) .nil⟩
          ⟨Host, .cons "hostname" (.raw (.obj (.cons "foo_bar" (.num 1) .nil))) .nil⟩
        = false :=
  ⟨rfl, by decide⟩

/-- C5, amended: the serialize/deserialize round trip is the identity
for every instance whose state is flat and regular: declared,
duplicate-free keys that are stable under the camel/snake conversion,
atomic values on plain attributes, and on enum-typed child attributes
a member of the declared enumeration whose name equals its value and
is found again by the rebuild's name lookup.  For such instances
from_json (to_json x) succeeds with a state equal to the original
(every set attribute matches) and the result is equivalent to x.
Instances with nested mappings, with enum members whose wire value is
not also a member name, or with enum members stored on plain
attributes, do not round-trip in general. -/
theorem roundtrip_on_flat_states (cls : ModelClass) (st : StateList)
    (h : rtState cls st = true) :
    from_json cls (to_json ⟨cls, st⟩) = .ok ⟨cls, st⟩
      ∧ equivalent ⟨cls, st⟩ ⟨cls, st⟩ = true := by
  constructor
  · unfold from_json from_dict to_json
    simp only [convert_dict_keys]
    rw [conv2_encode cls st h]
    simp only [setAll_rt cls st .nil h (stDisjoint_nil_right st), stAppend]
  · exact pyEq_refl _

/-- C5, witness at the concrete Host scenario of the specification. -/
theorem roundtrip_on_flat_states_witness :
    from_json Host
        (to_json ⟨Host, .cons "hostname" (.raw (.str "db1.example.com"))
          (.cons "port" (.raw (.num 27017))
            (.cons "type_name" (.enumMember ⟨"TypeName", "MASTER", "MASTER"⟩) .nil))⟩)
      = .ok ⟨Host, .cons "hostname" (.raw (.str "db1.example.com"))
          (.cons "port" (.raw (.num 27017))
            (.cons "type_name" (.enumMember ⟨"TypeName", "MASTER", "MASTER"⟩) .nil))⟩ :=
  (roundtrip_on_flat_states Host
    (.cons "hostname" (.raw (.str "db1.example.com"))
      (.cons "port" (.raw (.num 27017))
        (.cons "type_name" (.enumMember ⟨"TypeName", "MASTER", "MASTER"⟩) .nil)))
    (by decide)).1
